import Mathlib

/-!
# Verification of the WAM fuel-price scraper

Shallow embedding of `server/services/wam_fuel_scraper.py` and proofs about
its behaviour.  Strings are modelled as lists of characters, Python `float`
values of the decimal tokens the script parses are modelled exactly as
rationals, and the network (HTTP GET/POST, DOM parsing) is modelled as an
oracle environment supplied to the pipeline.
-/

deriving instance DecidableEq for Except

namespace WamScraper

/-- Whitespace test used to model Python `str.strip()` / `str.split()`. -/
def isWs (c : Char) : Bool := c.isWhitespace

/-- Model of Python `str.strip()` on a character list. -/
def stripWs (l : List Char) : List Char :=
  ((l.dropWhile isWs).reverse.dropWhile isWs).reverse

/-- Auxiliary accumulator-based splitter for `splitWs`. -/
def splitWsAux (cur : List Char) : List Char → List (List Char)
  | [] => if cur.isEmpty then [] else [cur.reverse]
  | c :: cs =>
    if isWs c then
      if cur.isEmpty then splitWsAux [] cs else cur.reverse :: splitWsAux [] cs
    else
      splitWsAux (c :: cur) cs

/-- Model of Python `str.split()` (no argument): split on runs of whitespace,
producing no empty words. -/
def splitWs (l : List Char) : List (List Char) := splitWsAux [] l

/-- Model of Python `str.find(sub)`: index of the first occurrence of
`needle` in `hay`, `none` standing for `-1`. -/
def findSub : List Char → List Char → Option Nat
  | [], needle => if needle.isEmpty then some 0 else none
  | c :: cs, needle =>
    if needle.isPrefixOf (c :: cs) then some 0
    else (findSub cs needle).map (· + 1)

/-- Numeric value of a digit character (`'0'` ↦ 0, …); the script only ever
applies it to decimal digits. -/
def digitVal (c : Char) : ℚ := ((c.toNat - 48 : Nat) : ℚ)

/-- Value of a string of decimal digits read in base 10. -/
def decDigits (l : List Char) : ℚ :=
  l.foldl (fun a c => a * 10 + digitVal c) 0

/-- Model of Python `float(word)` restricted to the shapes the script feeds
it: digits possibly containing `'.'` characters.  A word with two or more
dots makes `float` raise `ValueError`, modelled as `none`. -/
def parseDotNum (w : List Char) : Option ℚ :=
  let a := w.takeWhile (· ≠ '.')
  match w.dropWhile (· ≠ '.') with
  | [] => some (decDigits a)
  | _ :: b =>
    if b.contains '.' then none
    else some (decDigits a + decDigits b / 10 ^ b.length)

/-- The test `word.replace('.', '').isdigit()` from the primary heuristic:
after removing dots, the word is non-empty and consists of decimal digits. -/
def isPriceWord (w : List Char) : Bool :=
  let ds := w.filter (· ≠ '.')
  !ds.isEmpty && ds.all Char.isDigit

/-- One step of the fallback regex `(\d+[,.]\d+)`: leftmost match, returned
as (integer digits, separator, fractional digits).  At each position the
first `\d+` is greedy; shrinking it can never expose a separator, so a
position matches exactly when the maximal digit run there is followed by a
separator and a digit. -/
def findDecMatch : List Char → Option (List Char × Char × List Char)
  | [] => none
  | c :: cs =>
    if c.isDigit then
      let d1 := (c :: cs).takeWhile Char.isDigit
      match (c :: cs).dropWhile Char.isDigit with
      | s :: rest =>
        if (s = '.' || s = ',') && (rest.headD ' ').isDigit then
          some (d1, s, rest.takeWhile Char.isDigit)
        else findDecMatch cs
      | [] => findDecMatch cs
    else findDecMatch cs

/-- Value of a fallback match after `matches[0].replace(',', '.')` and
`float`: the separator always becomes a decimal point. -/
def decMatchVal (m : List Char × Char × List Char) : ℚ :=
  decDigits m.1 + decDigits m.2.2 / 10 ^ m.2.2.length

/-- The `FUEL_TYPE_MAPPING` constant: label (lower case) → canonical code,
in insertion order. -/
def FUEL_TYPE_MAPPING : List (List Char × String) :=
  [("special 95".data, "PETROL"),
   ("super 98".data, "SUPER"),
   ("e-plus 91".data, "EPLUS"),
   ("diesel".data, "DIESEL")]

/-- Body of the per-fuel-type `try` block of `extract_fuel_prices`, for one
`(key, fuel_type)` pair, over the lower-cased article text.
`Except.error ()` models an exception escaping to the `except` clause (the
only source is `float(word)` raising on a multi-dot word in the primary
heuristic); `Except.ok none` models falling through with `price` still
`None`, and `Except.ok (some v)` a recovered value `v` (possibly `0.0`). -/
def extractPriceForKey (textLower : List Char) (key : List Char) :
    Except Unit (Option ℚ) :=
  match findSub textLower key with
  | none => .ok none
  | some pos =>
    let segment := (textLower.drop pos).take 100
    match findSub segment "aed".data with
    | some aedPos =>
      let numberSegment := stripWs ((segment.drop (aedPos + 3)).take 7)
      match (splitWs numberSegment).find? isPriceWord with
      | some w =>
        (match parseDotNum w with
         | some v => .ok (some v)
         | none => .error ())
      | none => .ok ((findDecMatch segment).map decMatchVal)
    | none => .ok ((findDecMatch segment).map decMatchVal)

/-- The loop of `extract_fuel_prices` over a mapping: build the `prices`
dict in iteration order.  An exception (`.error`) or a falsy price (`None`
or `0.0`) adds no entry; the `if price:` test keeps only non-zero values. -/
def extractLoop (textLower : List Char) :
    List (List Char × String) → List (String × ℚ)
  | [] => []
  | (key, fuelType) :: rest =>
    (match extractPriceForKey textLower key with
     | .ok (some v) => if v ≠ 0 then [(fuelType, v)] else []
     | _ => []) ++ extractLoop textLower rest

/-- `text_lower = article_text.lower()` as a character list. -/
def lowerText (articleText : String) : List Char :=
  articleText.data.map Char.toLower

/-- `segment = text_lower[pos:pos+100]`: the 100-character scan window
starting at a label's match position. -/
def scanWindow (textLower : List Char) (pos : Nat) : List Char :=
  (textLower.drop pos).take 100

/-- The `prices` map computed by `extract_fuel_prices` on an article text:
lower-case the text, then run the loop over `FUEL_TYPE_MAPPING`. -/
def extractPrices (articleText : String) : List (String × ℚ) :=
  extractLoop (lowerText articleText) FUEL_TYPE_MAPPING

/-- The Price Report: the dict `{'prices': ..., 'date': ..., 'source': ...}`
returned by `extract_fuel_prices` on success. -/
structure FuelPriceReport where
  prices : List (String × ℚ)
  date : String
  source : String
  deriving DecidableEq

/-- `extract_fuel_prices`: return a report exactly when at least one price
was found, else `None`.  `now` models `datetime.now(timezone.utc).isoformat()`. -/
def extractFuelPrices (now : String) (articleText : String) :
    Option FuelPriceReport :=
  let prices := extractPrices articleText
  if prices.isEmpty then none
  else some ⟨prices, now, "WAM (Emirates News Agency)"⟩

/-- A result card parsed from the search-results listing, after the check
that title, date and link elements are all present (cards missing one are
discarded during parsing and never reach the selector).  Fields hold the raw
element texts. -/
structure Card where
  title : String
  date : String
  link : String
  deriving DecidableEq

/-- The per-card normalisation of `scrape_wam_for_fuel_prices`:
`title_elem.text.strip().lower()` and `date_elem.text.strip()`. -/
def normCard (c : Card) : Card :=
  { title := c.title.trim.toLower, date := c.date.trim, link := c.link }

/-- `sub in s` on character lists. -/
def containsSub (s sub : List Char) : Bool := (findSub s sub).isSome

/-- The keyword filter on lower-cased titles:
`('fuel price' in title or 'petrol price' in title) and
('announce' in title or 'set' in title)`. -/
def isFuelAnnouncement (title : String) : Bool :=
  (containsSub title.data "fuel price".data ||
   containsSub title.data "petrol price".data) &&
  (containsSub title.data "announce".data ||
   containsSub title.data "set".data)

/-- Stable insertion into a list sorted by date text in descending order:
the new card goes before the first card whose date is not greater, which is
where Python's stable `sort(key=..., reverse=True)` places it. -/
def insertByDateDesc (c : Card) : List Card → List Card
  | [] => [c]
  | d :: ds =>
    if d.date ≤ c.date then c :: d :: ds else d :: insertByDateDesc c ds

/-- Model of `fuel_price_articles.sort(key=lambda x: x['date'], reverse=True)`:
a stable sort by raw date text, descending lexicographically. -/
def sortByDateDesc : List Card → List Card
  | [] => []
  | c :: cs => insertByDateDesc c (sortByDateDesc cs)

/-- The announcement selector of `scrape_wam_for_fuel_prices`: normalise
each card, keep the keyword matches, sort by date text descending and take
the first; `none` models the "no fuel price announcement articles found"
early return. -/
def selectAnnouncement (cards : List Card) : Option Card :=
  let fuelPriceArticles :=
    (cards.map normCard).filter (fun c => isFuelAnnouncement c.title)
  match sortByDateDesc fuelPriceArticles with
  | [] => none
  | latest :: _ => some latest

/-- Resolution of the selected article's link to an absolute URL:
`if not article_url.startswith('http'): article_url = f"https://wam.ae{article_url}"`. -/
def resolveUrl (link : String) : String :=
  if link.startsWith "http" then link else "https://wam.ae" ++ link

/-- The article URL the pipeline fetches for a given listing, when an
announcement is selected. -/
def selectedUrl (cards : List Card) : Option String :=
  (selectAnnouncement cards).map (fun c => resolveUrl c.link)

/-- Oracle environment standing for the network and the DOM parser.
`listing` is the GET of the search page together with parsing its result
cards (`.error` = `requests.RequestException`); `article` maps an article
URL to its joined paragraph text (`.ok none` = no `.article-body`
container); `post` is the POST of a report, returning the HTTP status code
or a transport error; `now` is the extraction timestamp. -/
structure ScraperEnv where
  listing : Except Unit (List Card)
  article : String → Except Unit (Option String)
  post : FuelPriceReport → Except Unit Nat
  now : String

/-- Modelled from the spec: `response.raise_for_status()` on the POST
response (the HTTP client itself is not part of this repository).  Success
is a 2xx status; "any transport error, timeout, or non-2xx status is a
failure". -/
def is2xx (status : Nat) : Bool := 200 ≤ status && status < 300

/-- `scrape_wam_for_fuel_prices`: fetch and parse the listing, select the
announcement, fetch the article text, and extract prices; every failure
path returns `None`. -/
def scrapeWamForFuelPrices (env : ScraperEnv) : Option FuelPriceReport :=
  match env.listing with
  | .error _ => none
  | .ok cards =>
    match selectAnnouncement cards with
    | none => none
    | some latest =>
      match env.article (resolveUrl latest.link) with
      | .error _ => none
      | .ok none => none
      | .ok (some articleText) => extractFuelPrices env.now articleText

/-- `send_prices_to_tripxl`: a falsy `price_data` returns `False` at once;
otherwise POST the report and succeed exactly when no exception is raised.
The second component records the POST requests actually performed. -/
def sendPricesToTripxl (post : FuelPriceReport → Except Unit Nat)
    (priceData : Option FuelPriceReport) : Bool × List FuelPriceReport :=
  match priceData with
  | none => (false, [])
  | some report =>
    (match post report with
     | .ok status => is2xx status
     | .error _ => false, [report])

/-- `run_scraper`: scrape, then publish only when a report was produced. -/
def runScraper (env : ScraperEnv) : Bool :=
  match scrapeWamForFuelPrices env with
  | some priceData => (sendPricesToTripxl env.post (some priceData)).1
  | none => false

/-- `sys.exit(0 if success else 1)`. -/
def exitCode (env : ScraperEnv) : Nat :=
  if runScraper env then 0 else 1

/-- The entry one iteration of the extraction loop contributes for its own
fuel type: a value only when the `try` block recovered a non-zero price. -/
def perKeyEntry (r : Except Unit (Option ℚ)) : Option ℚ :=
  match r with
  | .ok (some v) => if v ≠ 0 then some v else none
  | _ => none

/-- A decimal-number token for stating the "aed <number>" pattern: digits,
or digits, a dot and more digits. -/
def isNumToken (num : List Char) : Bool :=
  let a := num.takeWhile (· ≠ '.')
  (!a.isEmpty && a.all Char.isDigit) &&
  (match num.dropWhile (· ≠ '.') with
   | [] => true
   | _ :: b => !b.isEmpty && b.all Char.isDigit && !b.contains '.')

/-- The pattern `"aed " ++ num` occurs in `w` at index `i`, with `num` a
maximal token: the following character, if any, neither extends the number
with a digit nor with a dot. -/
def aedNumAt (w num : List Char) (i : Nat) : Bool :=
  ((w.drop i).take (4 + num.length) == 'a' :: 'e' :: 'd' :: ' ' :: num) &&
  (match (w.drop (i + 4 + num.length)).head? with
   | some c => !(c.isDigit || c == '.')
   | none => true)

/-- An `aed <number>` pattern occurs somewhere in the window `w`. -/
def aedNumberOccursIn (w num : List Char) : Prop :=
  isNumToken num = true ∧ ∃ i, aedNumAt w num i = true

/-! ## Structure of the extraction loop -/

/-- One iteration of the loop contributes exactly the `perKeyEntry` of its
own extraction attempt. -/
lemma extractLoop_cons (tl key : List Char) (ft : String)
    (rest : List (List Char × String)) :
    extractLoop tl ((key, ft) :: rest) =
      (match perKeyEntry (extractPriceForKey tl key) with
       | some v => [(ft, v)]
       | none => []) ++ extractLoop tl rest := by
  cases h : extractPriceForKey tl key with
  | error e => simp [extractLoop, perKeyEntry, h]
  | ok p =>
    cases p with
    | none => simp [extractLoop, perKeyEntry, h]
    | some v =>
      by_cases hv : v ≠ 0 <;> simp [extractLoop, perKeyEntry, h, hv]

/-- Every key recorded by the loop is a canonical code of the mapping. -/
lemma extractLoop_keys_subset (tl : List Char)
    (m : List (List Char × String)) :
    ∀ p ∈ extractLoop tl m, p.1 ∈ m.map Prod.snd := by
  induction m with
  | nil => simp [extractLoop]
  | cons kf rest ih =>
    obtain ⟨key, ft⟩ := kf
    intro p hp
    rw [extractLoop_cons] at hp
    rcases List.mem_append.mp hp with h | h
    · cases hpk : perKeyEntry (extractPriceForKey tl key) with
      | none => simp [hpk] at h
      | some v => simp [hpk] at h; simp [h]
    · exact List.mem_cons_of_mem _ (ih p h)

/-- A code that is not in the mapping is looked up to `none`. -/
lemma lookup_extractLoop_notMem (tl : List Char)
    (m : List (List Char × String)) (code : String)
    (hcode : code ∉ m.map Prod.snd) :
    List.lookup code (extractLoop tl m) = none := by
  cases h : List.lookup code (extractLoop tl m) with
  | none => rfl
  | some v =>
    obtain ⟨l₁, l₂, hsplit, -⟩ := List.lookup_eq_some_iff.mp h
    exact absurd (extractLoop_keys_subset tl m (code, v)
      (hsplit ▸ List.mem_append_right l₁ (List.mem_cons_self _ _))) hcode

/-- With pairwise-distinct canonical codes, the loop's entry for a mapped
code is exactly the `perKeyEntry` of its own key's extraction — it does not
depend on any other fuel type's iteration. -/
lemma lookup_extractLoop (tl : List Char) (m : List (List Char × String))
    (hnd : (m.map Prod.snd).Nodup) (key : List Char) (code : String)
    (hmem : (key, code) ∈ m) :
    List.lookup code (extractLoop tl m) =
      perKeyEntry (extractPriceForKey tl key) := by
  induction m with
  | nil => simp at hmem
  | cons kf rest ih =>
    obtain ⟨key0, code0⟩ := kf
    rw [extractLoop_cons]
    have hnd' : code0 ∉ rest.map Prod.snd ∧ (rest.map Prod.snd).Nodup := by
      rw [List.map_cons, List.nodup_cons] at hnd
      exact hnd
    rcases List.mem_cons.mp hmem with heq | hmemr
    · obtain ⟨hk, hc⟩ := Prod.mk.injEq .. ▸ heq
      subst hk; subst hc
      cases hpk : perKeyEntry (extractPriceForKey tl key) with
      | some v => simp [List.lookup]
      | none =>
        simp only [List.nil_append]
        exact lookup_extractLoop_notMem tl rest code hnd'.1
    · have hcode : code ∈ rest.map Prod.snd :=
        List.mem_map.mpr ⟨(key, code), hmemr, rfl⟩
      have hne : code ≠ code0 := by
        intro h
        exact hnd'.1 (h ▸ hcode)
      have hbeq : (code == code0) = false := beq_eq_false_iff_ne.mpr hne
      have htail := ih hnd'.2 hmemr
      cases hpk : perKeyEntry (extractPriceForKey tl key0) with
      | none => simpa using htail
      | some v =>
        simpa [List.lookup, hbeq] using htail

/-- With pairwise-distinct canonical codes, the recorded keys are pairwise
distinct: each fuel type contributes at most one entry. -/
lemma extractLoop_keys_nodup (tl : List Char)
    (m : List (List Char × String)) (hnd : (m.map Prod.snd).Nodup) :
    ((extractLoop tl m).map Prod.fst).Nodup := by
  induction m with
  | nil => simp [extractLoop]
  | cons kf rest ih =>
    obtain ⟨key0, code0⟩ := kf
    rw [List.map_cons, List.nodup_cons] at hnd
    rw [extractLoop_cons]
    have hrest := ih hnd.2
    cases hpk : perKeyEntry (extractPriceForKey tl key0) with
    | none => simpa using hrest
    | some v =>
      simp only [List.cons_append, List.nil_append, List.map_cons,
        List.nodup_cons]
      refine ⟨fun hmem => hnd.1 ?_, hrest⟩
      obtain ⟨p, hp, hfst⟩ := List.mem_map.mp hmem
      exact hfst ▸ extractLoop_keys_subset tl rest p hp

/-- The loop records at most one entry per mapping row. -/
lemma extractLoop_length_le (tl : List Char)
    (m : List (List Char × String)) :
    (extractLoop tl m).length ≤ m.length := by
  induction m with
  | nil => simp [extractLoop]
  | cons kf rest ih =>
    obtain ⟨key0, code0⟩ := kf
    rw [extractLoop_cons]
    cases hpk : perKeyEntry (extractPriceForKey tl key0) with
    | none => simpa using Nat.le_succ_of_le ih
    | some v => simpa using ih

/-! ## The descending stable sort of candidate announcements -/

/-- Membership is preserved by insertion. -/
lemma mem_insertByDateDesc {y c : Card} {l : List Card} :
    y ∈ insertByDateDesc c l ↔ y = c ∨ y ∈ l := by
  induction l with
  | nil => simp [insertByDateDesc]
  | cons d ds ih =>
    by_cases h : d.date ≤ c.date
    · simp [insertByDateDesc, h]
    · simp [insertByDateDesc, h, ih]
      tauto

/-- Membership is preserved by the sort. -/
lemma mem_sortByDateDesc {y : Card} {l : List Card} :
    y ∈ sortByDateDesc l ↔ y ∈ l := by
  induction l with
  | nil => simp [sortByDateDesc]
  | cons c cs ih =>
    simp [sortByDateDesc, mem_insertByDateDesc, ih]

/-- The head of the descending sort is an element whose date text is
lexicographically greatest. -/
lemma sortByDateDesc_head_max (l : List Card) (c : Card)
    (h : (sortByDateDesc l).head? = some c) :
    c ∈ l ∧ ∀ y ∈ l, y.date ≤ c.date := by
  induction l generalizing c with
  | nil => simp [sortByDateDesc] at h
  | cons x xs ih =>
    rw [sortByDateDesc] at h
    cases hs : sortByDateDesc xs with
    | nil =>
      have hxs : xs = [] := by
        cases xs with
        | nil => rfl
        | cons a as =>
          exact absurd (mem_sortByDateDesc.mpr (List.mem_cons_self a as))
            (by simp [hs])
      rw [hs] at h
      simp [insertByDateDesc] at h
      subst hxs
      simp [← h]
    | cons d ds =>
      obtain ⟨hdmem, hdmax⟩ := ih d (by rw [hs]; rfl)
      rw [hs] at h
      by_cases hcmp : d.date ≤ c.date
      · rw [insertByDateDesc] at h
        by_cases hle : d.date ≤ x.date
        · simp only [if_pos hle, List.head?_cons, Option.some.injEq] at h
          subst h
          refine ⟨List.mem_cons_self x xs, ?_⟩
          intro y hy
          rcases List.mem_cons.mp hy with rfl | hyxs
          · exact le_refl _
          · exact le_trans (hdmax y hyxs) hle
        · simp only [if_neg hle, List.head?_cons, Option.some.injEq] at h
          subst h
          refine ⟨List.mem_cons_of_mem x hdmem, ?_⟩
          intro y hy
          rcases List.mem_cons.mp hy with rfl | hyxs
          · exact le_of_lt (lt_of_not_le hle)
          · exact hdmax y hyxs
      · rw [insertByDateDesc] at h
        by_cases hle : d.date ≤ x.date
        · simp only [if_pos hle, List.head?_cons, Option.some.injEq] at h
          subst h
          exact absurd hle hcmp
        · simp only [if_neg hle, List.head?_cons, Option.some.injEq] at h
          subst h
          exact absurd (le_refl _) hcmp

/-! ## Non-negativity of parsed decimal values -/

/-- Digit values are non-negative. -/
lemma digitVal_nonneg (c : Char) : 0 ≤ digitVal c := by
  unfold digitVal
  exact_mod_cast Nat.zero_le _

/-- The base-10 accumulator stays non-negative. -/
lemma decDigits_foldl_nonneg (l : List Char) (a : ℚ) (ha : 0 ≤ a) :
    0 ≤ l.foldl (fun a c => a * 10 + digitVal c) a := by
  induction l generalizing a with
  | nil => exact ha
  | cons c cs ih =>
    exact ih _ (add_nonneg (mul_nonneg ha (by norm_num)) (digitVal_nonneg c))

/-- Digit strings have non-negative values. -/
lemma decDigits_nonneg (l : List Char) : 0 ≤ decDigits l :=
  decDigits_foldl_nonneg l 0 le_rfl

/-- A value accepted by the model of `float` is non-negative. -/
lemma parseDotNum_nonneg (w : List Char) (v : ℚ)
    (h : parseDotNum w = some v) : 0 ≤ v := by
  simp only [parseDotNum] at h
  split at h
  · exact (Option.some.inj h) ▸ decDigits_nonneg _
  · split at h
    · exact absurd h (by simp)
    · exact (Option.some.inj h) ▸
        add_nonneg (decDigits_nonneg _)
          (div_nonneg (decDigits_nonneg _) (by positivity))

/-- The value of a fallback regex match is non-negative. -/
lemma decMatchVal_nonneg (m : List Char × Char × List Char) :
    0 ≤ decMatchVal m :=
  add_nonneg (decDigits_nonneg _)
    (div_nonneg (decDigits_nonneg _) (by positivity))

/-- Any price value the `try` block recovers is non-negative. -/
lemma extractPriceForKey_ok_nonneg (tl key : List Char) (v : ℚ)
    (h : extractPriceForKey tl key = .ok (some v)) : 0 ≤ v := by
  simp only [extractPriceForKey] at h
  split at h
  · exact absurd h (by simp)
  · split at h
    · split at h
      · split at h
        · rename_i hparse
          have := Except.ok.inj h
          have hv := Option.some.inj this
          exact hv ▸ parseDotNum_nonneg _ _ hparse
        · exact absurd h (by simp)
      · have := Except.ok.inj h
        obtain ⟨m, -, hval⟩ := Option.map_eq_some'.mp this
        exact hval ▸ decMatchVal_nonneg m
    · have := Except.ok.inj h
      obtain ⟨m, -, hval⟩ := Option.map_eq_some'.mp this
      exact hval ▸ decMatchVal_nonneg m

/-! ## Plumbing for the report and the pipeline -/

/-- A report is produced exactly when the price map is non-empty. -/
lemma extractFuelPrices_isSome_iff (now text : String) :
    (extractFuelPrices now text).isSome ↔ extractPrices text ≠ [] := by
  simp only [extractFuelPrices]
  by_cases h : (extractPrices text).isEmpty
  · simp [h, List.isEmpty_iff.mp h]
  · simp only [if_neg h, Option.isSome_some, true_iff]
    simpa [List.isEmpty_iff] using h

/-- Shape of a produced report. -/
lemma extractFuelPrices_eq_some (now text : String) (r : FuelPriceReport)
    (h : extractFuelPrices now text = some r) :
    r.prices = extractPrices text ∧ extractPrices text ≠ [] ∧
      r.date = now ∧ r.source = "WAM (Emirates News Agency)" := by
  simp only [extractFuelPrices] at h
  split at h
  · exact absurd h (by simp)
  · rename_i hne
    obtain rfl := Option.some.inj h
    exact ⟨rfl, by simpa [List.isEmpty_iff] using hne, rfl, rfl⟩

/-- Any report the scraping pipeline produces has a non-empty price map. -/
lemma scrape_some_prices_ne (env : ScraperEnv) (r : FuelPriceReport)
    (h : scrapeWamForFuelPrices env = some r) : r.prices ≠ [] := by
  unfold scrapeWamForFuelPrices at h
  split at h
  · exact absurd h (by simp)
  · split at h
    · exact absurd h (by simp)
    · split at h
      · exact absurd h (by simp)
      · exact absurd h (by simp)
      · have hr := extractFuelPrices_eq_some _ _ _ h
        rw [hr.1]
        exact hr.2.1

/-- An entry survives `perKeyEntry` exactly from a successful non-zero
extraction. -/
lemma perKeyEntry_eq_some (e : Except Unit (Option ℚ)) (v : ℚ)
    (h : perKeyEntry e = some v) : e = .ok (some v) ∧ v ≠ 0 := by
  unfold perKeyEntry at h
  split at h
  · rename_i u
    by_cases hu : u ≠ 0
    · rw [if_pos hu] at h
      obtain rfl := Option.some.inj h
      exact ⟨rfl, hu⟩
    · rw [if_neg hu] at h
      exact absurd h (by simp)
  · exact absurd h (by simp)

/-- A key present in an association list is looked up to something. -/
lemma lookup_isSome_of_mem_keys (code : String) (l : List (String × ℚ))
    (h : code ∈ l.map Prod.fst) : (List.lookup code l).isSome := by
  induction l with
  | nil => simp at h
  | cons p rest ih =>
    obtain ⟨a, b⟩ := p
    by_cases hc : code = a
    · subst hc
      simp [List.lookup]
    · have hbeq : (code == a) = false := beq_eq_false_iff_ne.mpr hc
      simp only [List.map_cons, List.mem_cons] at h
      rcases h with h | h
      · exact absurd h hc
      · simpa [List.lookup, hbeq] using ih h

/-- Every value the extraction loop records is strictly positive. -/
lemma extractLoop_mem_pos (tl : List Char) (m : List (List Char × String)) :
    ∀ p ∈ extractLoop tl m, 0 < p.2 := by
  induction m with
  | nil => simp [extractLoop]
  | cons kf rest ih =>
    obtain ⟨key0, code0⟩ := kf
    intro p hp
    rw [extractLoop_cons] at hp
    rcases List.mem_append.mp hp with h | h
    · cases hpk : perKeyEntry (extractPriceForKey tl key0) with
      | none => simp [hpk] at h
      | some v =>
        simp only [hpk, List.mem_singleton] at h
        subst h
        obtain ⟨hok, hnz⟩ := perKeyEntry_eq_some _ _ hpk
        exact lt_of_le_of_ne (extractPriceForKey_ok_nonneg tl key0 v hok)
          (Ne.symm hnz)
    · exact ih p h

/-! ## Claim theorems -/

/-- C3: `extract_fuel_prices` produces a Price Report if and only if the
extracted price map is non-empty; when the map is empty it returns `None`,
and the publisher, given a falsy report, returns failure without performing
any POST request. -/
theorem C3_report_iff_nonempty (now text : String)
    (post : FuelPriceReport → Except Unit Nat) :
    ((extractFuelPrices now text).isSome ↔ extractPrices text ≠ []) ∧
    (extractPrices text = [] → extractFuelPrices now text = none) ∧
    sendPricesToTripxl post none = (false, []) := by
  refine ⟨extractFuelPrices_isSome_iff now text, ?_, rfl⟩
  intro h
  cases hx : extractFuelPrices now text with
  | none => rfl
  | some r =>
    exact absurd ((extractFuelPrices_isSome_iff now text).mp (by simp [hx]))
      (by simp [h])

/-- Witness for C3 at a concrete article with no prices and a concrete
POST oracle. -/
theorem C3_witness :
    extractFuelPrices "2024-07-01T06:00:00+00:00" "no fuel info here" =
      none ∧
    sendPricesToTripxl (fun _ => .ok 200) none = (false, []) := by
  have h := C3_report_iff_nonempty "2024-07-01T06:00:00+00:00"
    "no fuel info here" (fun _ => .ok 200)
  exact ⟨h.2.1 (by decide), h.2.2⟩

/-- C7: a recovered value of exactly `0` or a per-fuel-type parse failure
leaves that fuel type absent from the result map, and every value present
in the returned price map is strictly positive. -/
theorem C7_zero_absent_values_positive (text : String) :
    (∀ key code, (key, code) ∈ FUEL_TYPE_MAPPING →
       (extractPriceForKey (lowerText text) key = .ok (some 0) ∨
        extractPriceForKey (lowerText text) key = .error ()) →
       List.lookup code (extractPrices text) = none) ∧
    (∀ p ∈ extractPrices text, 0 < p.2) := by
  constructor
  · intro key code hmem hcase
    have h := lookup_extractLoop (lowerText text) FUEL_TYPE_MAPPING
      (by decide) key code hmem
    rw [extractPrices] at *
    rcases hcase with h0 | herr
    · rw [h, h0]
      simp [perKeyEntry]
    · rw [h, herr]
      simp [perKeyEntry]
  · exact extractLoop_mem_pos (lowerText text) FUEL_TYPE_MAPPING

/-- Witness for C7: a fallback match of exactly `0.00` yields no entry. -/
theorem C7_witness :
    List.lookup "DIESEL" (extractPrices "diesel dropped to 0.00 dirhams") =
      none :=
  (C7_zero_absent_values_positive "diesel dropped to 0.00 dirhams").1
    "diesel".data "DIESEL" (by decide) (Or.inl (by with_unfolding_all decide))

/-- C8: an exception raised while extracting one fuel type (the only
source is `float(word)` raising in the primary heuristic) is caught and
does not prevent extraction for the remaining fuel types: every other fuel
type's entry is exactly the result of its own extraction attempt. -/
theorem C8_exception_isolated (text : String) (key1 key2 : List Char)
    (code1 code2 : String)
    (h1 : (key1, code1) ∈ FUEL_TYPE_MAPPING)
    (h2 : (key2, code2) ∈ FUEL_TYPE_MAPPING)
    (herr : extractPriceForKey (lowerText text) key1 = .error ()) :
    List.lookup code2 (extractPrices text) =
      perKeyEntry (extractPriceForKey (lowerText text) key2) :=
  lookup_extractLoop (lowerText text) FUEL_TYPE_MAPPING (by decide)
    key2 code2 h2

/-- Witness for C8: `special 95` aborts on the multi-dot token `1.2.3`,
while `diesel` still gets its price `2.80` recorded. -/
theorem C8_witness :
    extractPriceForKey
        (lowerText "special 95 aed 1.2.3 and diesel aed 2.80 per litre")
        "special 95".data = .error () ∧
    List.lookup "DIESEL"
        (extractPrices "special 95 aed 1.2.3 and diesel aed 2.80 per litre") =
      some (14 / 5) := by
  constructor
  · decide
  · rw [C8_exception_isolated
      "special 95 aed 1.2.3 and diesel aed 2.80 per litre"
      "special 95".data "diesel".data "PETROL" "DIESEL"
      (by decide) (by decide) (by decide)]
    with_unfolding_all decide

/-- C10: on any string input `extract_fuel_prices` terminates and returns
either `None` or a report whose price map is non-empty, has keys drawn only
from the four canonical codes, at most one entry per fuel type and hence at
most four entries. -/
theorem C10_result_shape (now text : String) (r : FuelPriceReport)
    (h : extractFuelPrices now text = some r) :
    r.prices ≠ [] ∧
    (∀ p ∈ r.prices,
      p.1 = "PETROL" ∨ p.1 = "SUPER" ∨ p.1 = "EPLUS" ∨ p.1 = "DIESEL") ∧
    (r.prices.map Prod.fst).Nodup ∧ r.prices.length ≤ 4 := by
  have hr := extractFuelPrices_eq_some now text r h
  rw [hr.1]
  refine ⟨hr.2.1, ?_, ?_, ?_⟩
  · intro p hp
    have := extractLoop_keys_subset (lowerText text) FUEL_TYPE_MAPPING p hp
    simpa [FUEL_TYPE_MAPPING] using this
  · exact extractLoop_keys_nodup (lowerText text) FUEL_TYPE_MAPPING
      (by decide)
  · exact extractLoop_length_le (lowerText text) FUEL_TYPE_MAPPING

/-- Witness for C10 at the spec's end-to-end scenario text. -/
theorem C10_witness :
    let r : FuelPriceReport :=
      ⟨[("PETROL", 68 / 25), ("DIESEL", 14 / 5)], "T",
        "WAM (Emirates News Agency)"⟩
    r.prices ≠ [] ∧
    (∀ p ∈ r.prices,
      p.1 = "PETROL" ∨ p.1 = "SUPER" ∨ p.1 = "EPLUS" ∨ p.1 = "DIESEL") ∧
    (r.prices.map Prod.fst).Nodup ∧ r.prices.length ≤ 4 :=
  C10_result_shape "T"
    "special 95 will cost AED 2.72 per litre while diesel AED 2.80" _
    (by with_unfolding_all decide)

/-- C6: when a fuel label's 100-character window contains neither the
`"aed"` marker nor a digits-separator-digits pattern, the mapped canonical
code is entirely absent from the result map. -/
theorem C6_no_pattern_absent (text : String) (key : List Char)
    (code : String) (pos : Nat)
    (hmem : (key, code) ∈ FUEL_TYPE_MAPPING)
    (hpos : findSub (lowerText text) key = some pos)
    (haed : findSub (scanWindow (lowerText text) pos) "aed".data = none)
    (hdec : findDecMatch (scanWindow (lowerText text) pos) = none) :
    code ∉ (extractPrices text).map Prod.fst := by
  simp only [scanWindow] at haed hdec
  have hk : extractPriceForKey (lowerText text) key = .ok none := by
    simp only [extractPriceForKey, hpos, haed, hdec, Option.map_none']
  intro hmemkeys
  have hsome := lookup_isSome_of_mem_keys code _ hmemkeys
  have hl := lookup_extractLoop (lowerText text) FUEL_TYPE_MAPPING
    (by decide) key code hmem
  rw [extractPrices] at hsome
  rw [hl, hk] at hsome
  simp [perKeyEntry] at hsome

/-- Witness for C6: `diesel` occurs but its window has no `aed` marker and
no numeric pattern, so `DIESEL` is not a key of the result. -/
theorem C6_witness :
    "DIESEL" ∉ (extractPrices "diesel only mentioned here").map Prod.fst :=
  C6_no_pattern_absent "diesel only mentioned here" "diesel".data "DIESEL" 0
    (by decide) (by decide) (by decide) (by decide)

/-- C2: the announcement selector keeps only cards whose lower-cased title
matches the fuel-price and announce/set keywords, and among the survivors
it picks one whose raw date text is lexicographically greatest — a
non-matching card is never selected, whatever its date. -/
theorem C2_filter_then_latest (cards : List Card) (c : Card)
    (h : selectAnnouncement cards = some c) :
    isFuelAnnouncement c.title = true ∧ c ∈ cards.map normCard ∧
      ∀ c' ∈ cards.map normCard, isFuelAnnouncement c'.title = true →
        c'.date ≤ c.date := by
  simp only [selectAnnouncement] at h
  split at h
  · exact absurd h (by simp)
  · rename_i latest rest heq
    obtain rfl := Option.some.inj h
    have hmax := sortByDateDesc_head_max _ latest (by rw [heq]; rfl)
    obtain ⟨hfmem, hfilter⟩ := List.mem_filter.mp hmax.1
    refine ⟨hfilter, hfmem, ?_⟩
    intro c' hc' hf'
    exact hmax.2 c' (List.mem_filter.mpr ⟨hc', hf'⟩)

/-- Witness for C2 at the spec's two-card scenario: the unrelated card with
the later date `2024-07-01` is filtered out and the fuel-price card with
date `2024-06-30` is selected. -/
theorem C2_witness :
    let cards : List Card :=
      [⟨"Fuel prices announced for next month", "2024-06-30",
        "/en/details/1"⟩,
       ⟨"Unrelated news", "2024-07-01", "/en/details/2"⟩]
    let sel : Card :=
      ⟨"fuel prices announced for next month", "2024-06-30",
        "/en/details/1"⟩
    isFuelAnnouncement sel.title = true ∧ sel ∈ cards.map normCard ∧
      ∀ c' ∈ cards.map normCard, isFuelAnnouncement c'.title = true →
        c'.date ≤ sel.date :=
  C2_filter_then_latest _ _ (by with_unfolding_all decide)

/-- C9: the selector resolves the selected card's link to an absolute URL:
a link that does not start with `http` is prefixed with the site origin
`https://wam.ae`, and one that does is passed through unchanged. -/
theorem C9_absolute_url (cards : List Card) (c : Card)
    (h : selectAnnouncement cards = some c) :
    (c.link.startsWith "http" = true → selectedUrl cards = some c.link) ∧
    (c.link.startsWith "http" = false →
      selectedUrl cards = some ("https://wam.ae" ++ c.link)) := by
  unfold selectedUrl resolveUrl
  rw [h]
  constructor <;> intro hs <;> simp [hs]

/-- Witness for C9: a relative link is prefixed with the origin. -/
theorem C9_witness :
    selectedUrl [⟨"Fuel price announced", "2024-06-30", "/en/x"⟩] =
      some "https://wam.ae/en/x" :=
  (C9_absolute_url [⟨"Fuel price announced", "2024-06-30", "/en/x"⟩]
      ⟨"fuel price announced", "2024-06-30", "/en/x"⟩
      (by with_unfolding_all decide)).2
    (by with_unfolding_all decide)

/-- C4: the process exit status is `0` exactly when a non-empty Price
Report was extracted and the POST was answered with a 2xx status; in every
other case it is `1`, and no other exit status is possible. -/
theorem C4_exit_status (env : ScraperEnv) :
    (exitCode env = 0 ↔
      ∃ r status, scrapeWamForFuelPrices env = some r ∧ r.prices ≠ [] ∧
        env.post r = .ok status ∧ 200 ≤ status ∧ status < 300) ∧
    (exitCode env = 0 ∨ exitCode env = 1) := by
  constructor
  · constructor
    · intro h0
      unfold exitCode runScraper at h0
      cases hs : scrapeWamForFuelPrices env with
      | none => rw [hs] at h0; simp at h0
      | some r =>
        rw [hs] at h0
        simp only [sendPricesToTripxl] at h0
        cases hp : env.post r with
        | error e => simp [hp] at h0
        | ok status =>
          simp only [hp] at h0
          by_cases h2 : is2xx status = true
          · have h2' : 200 ≤ status ∧ status < 300 := by
              unfold is2xx at h2
              simpa using h2
            exact ⟨r, status, rfl, scrape_some_prices_ne env r hs, hp,
              h2'.1, h2'.2⟩
          · simp [h2] at h0
    · rintro ⟨r, status, hs, hne, hp, hle, hlt⟩
      unfold exitCode runScraper
      rw [hs]
      simp only [sendPricesToTripxl]
      simp only [hp]
      have h2 : is2xx status = true := by
        unfold is2xx
        simp [hle, hlt]
      simp [h2]
  · unfold exitCode
    by_cases h : runScraper env <;> simp [h]

/-- Witness for C4: a run whose listing, article and POST all succeed
exits with status `0`. -/
theorem C4_witness :
    exitCode
      ⟨.ok [⟨"Fuel prices announced", "2024-06-30", "/en/a"⟩],
       fun _ => .ok (some "special 95 will cost aed 2.72 per litre"),
       fun _ => .ok 200, "T"⟩ = 0 := by
  apply (C4_exit_status _).1.mpr
  refine ⟨⟨[("PETROL", 68 / 25)], "T", "WAM (Emirates News Agency)"⟩,
    200, ?_, ?_, rfl, by decide, by decide⟩
  · with_unfolding_all decide
  · with_unfolding_all decide

/-- C1 (amended): when a fuel label occurs and the window contains `aed`,
the recorded price is the value of the first whitespace-separated token of
the seven characters starting three after the first `aed` occurrence that
is digits after removing dots — provided that token parses and its value is
non-zero.  The value of a longer `aed <number>` pattern is not necessarily
returned exactly (see the counterexample). -/
theorem C1_primary_heuristic (text : String) (key : List Char)
    (code : String) (pos aedPos : Nat) (w : List Char) (v : ℚ)
    (hmem : (key, code) ∈ FUEL_TYPE_MAPPING)
    (hpos : findSub (lowerText text) key = some pos)
    (haed : findSub (scanWindow (lowerText text) pos) "aed".data =
      some aedPos)
    (hw : (splitWs (stripWs
        (((scanWindow (lowerText text) pos).drop (aedPos + 3)).take 7))).find?
        isPriceWord = some w)
    (hv : parseDotNum w = some v) (hnz : v ≠ 0) :
    List.lookup code (extractPrices text) = some v := by
  simp only [scanWindow] at haed hw
  have hk : extractPriceForKey (lowerText text) key = .ok (some v) := by
    simp only [extractPriceForKey, hpos, haed, hw, hv]
  have hl := lookup_extractLoop (lowerText text) FUEL_TYPE_MAPPING
    (by decide) key code hmem
  rw [extractPrices, hl, hk]
  simp [perKeyEntry, hnz]

/-- Witness for C1 at the spec's scenario: `special 95 ... aed 2.72`
records `PETROL ↦ 2.72`. -/
theorem C1_witness :
    List.lookup "PETROL"
      (extractPrices
        "special 95 will cost AED 2.72 per litre while diesel AED 2.80") =
      some (68 / 25) :=
  C1_primary_heuristic
    "special 95 will cost AED 2.72 per litre while diesel AED 2.80"
    "special 95".data "PETROL" 0 21 "2.72".data (68 / 25)
    (by decide) (by decide) (by decide) (by decide)
    (by with_unfolding_all decide) (by with_unfolding_all decide)

/-- Counterexample to C1 as stated: in
`"special 95 price is aed 1234.5678 this month"` the pattern
`aed 1234.5678` lies entirely inside the 100-character window, yet the
extractor records `1234.5` (the seven-character slice truncates the
number), not `1234.5678`. -/
theorem C1_counterexample :
    ¬ (∀ (text : String) (key : List Char) (code : String) (pos : Nat)
        (num : List Char),
        (key, code) ∈ FUEL_TYPE_MAPPING →
        findSub (lowerText text) key = some pos →
        aedNumberOccursIn (scanWindow (lowerText text) pos) num →
        List.lookup code (extractPrices text) = parseDotNum num) := by
  intro hclaim
  have h := hclaim "special 95 price is aed 1234.5678 this month"
    "special 95".data "PETROL" 0 "1234.5678".data
    (by decide) (by decide) ⟨by decide, 20, by decide⟩
  exact absurd h (by with_unfolding_all decide)

/-- C5 (amended): when a fuel label occurs, its window contains no `aed`
marker and the fallback pattern `digits[.,]digits` has a first match, the
extractor records the float value of that match with `,` replaced by `.` —
provided that value is non-zero (a zero match is discarded by the
`if price:` test; see the counterexample). -/
theorem C5_fallback_heuristic (text : String) (key : List Char)
    (code : String) (pos : Nat) (m : List Char × Char × List Char)
    (hmem : (key, code) ∈ FUEL_TYPE_MAPPING)
    (hpos : findSub (lowerText text) key = some pos)
    (haed : findSub (scanWindow (lowerText text) pos) "aed".data = none)
    (hm : findDecMatch (scanWindow (lowerText text) pos) = some m)
    (hnz : decMatchVal m ≠ 0) :
    List.lookup code (extractPrices text) = some (decMatchVal m) := by
  simp only [scanWindow] at haed hm
  have hk : extractPriceForKey (lowerText text) key =
      .ok (some (decMatchVal m)) := by
    simp only [extractPriceForKey, hpos, haed, hm, Option.map_some']
  have hl := lookup_extractLoop (lowerText text) FUEL_TYPE_MAPPING
    (by decide) key code hmem
  rw [extractPrices, hl, hk]
  simp [perKeyEntry, hnz]

/-- Witness for C5: `diesel ... 2,80` with no `aed` marker records
`DIESEL ↦ 2.80` via the comma-normalising fallback. -/
theorem C5_witness :
    List.lookup "DIESEL"
      (extractPrices "diesel went down to 2,80 this month") =
      some (14 / 5) := by
  have h := C5_fallback_heuristic "diesel went down to 2,80 this month"
    "diesel".data "DIESEL" 0 ("2".data, ',', "80".data)
    (by decide) (by decide) (by decide) (by decide)
    (by with_unfolding_all decide)
  rw [h]
  with_unfolding_all decide

/-- Counterexample to C5 as stated: in `"diesel dropped to 0.00 dirhams"`
the window has no `aed` marker and the first fallback match is `0.00`, but
no entry is recorded (the zero value is falsy), instead of recording
`DIESEL ↦ 0.0`. -/
theorem C5_counterexample :
    ¬ (∀ (text : String) (key : List Char) (code : String) (pos : Nat)
        (m : List Char × Char × List Char),
        (key, code) ∈ FUEL_TYPE_MAPPING →
        findSub (lowerText text) key = some pos →
        findSub (scanWindow (lowerText text) pos) "aed".data = none →
        findDecMatch (scanWindow (lowerText text) pos) = some m →
        List.lookup code (extractPrices text) = some (decMatchVal m)) := by
  intro hclaim
  have h := hclaim "diesel dropped to 0.00 dirhams" "diesel".data "DIESEL" 0
    ("0".data, '.', "00".data)
    (by decide) (by decide) (by decide) (by decide)
  exact absurd h (by with_unfolding_all decide)

end WamScraper
